import Mathlib

/-!
Verification of the request-handling pipeline of `src/server.c`, a minimal
single-threaded HTTP/1.1 static file server.  The C code is shallowly
embedded: C strings become `List Char`, fallible functions return `Option`,
and the per-connection handler becomes a pure function from an abstract
filesystem model and the received bytes to an `Outcome`.
-/

namespace HttpServer

/-! ## Basic string utilities (embedding C string operations) -/

/-- The character class recognised by C `isspace` in the default locale. -/
def isSpace (c : Char) : Bool :=
  c = ' ' || c = '\t' || c = '\n' || c = '\x0b' || c = '\x0c' || c = '\r'

/-- Character-by-character prefix comparison, as `strncmp`-style matching
at one candidate position inside `strstr`. -/
def startsWith : List Char → List Char → Bool
  | [], _ => true
  | _ :: _, [] => false
  | a :: as, b :: bs => (a = b) && startsWith as bs

/-- Embedding of `strstr(hay, needle) != NULL`: the needle occurs as a
contiguous substring of the haystack. -/
def strstr (hay needle : List Char) : Bool :=
  hay.tails.any fun t => startsWith needle t

/-- Direct recursive test for two consecutive dots; proved equal to
`strstr s ".."` below. -/
def hasDotDot : List Char → Bool
  | [] => false
  | [_] => false
  | a :: b :: rest => (a = '.' && b = '.') || hasDotDot (b :: rest)

/-- `while (*rel == '/') rel++;` from `safe_join`. -/
def stripLeadingSlashes : List Char → List Char
  | [] => []
  | c :: cs => if c = '/' then stripLeadingSlashes cs else c :: cs

/-! ## `safe_join` (src/server.c lines 156-169)

`snprintf(out, n, fmt, ...) < (int)n` succeeds exactly when the composed
string (length excluding the terminating NUL) fits strictly below the buffer
size `n`; on overflow the C function returns `false`.  The embedding returns
`none` in that case. -/

def safe_join (n : Nat) (root rel : List Char) : Option (List Char) :=
  if strstr rel ("..".data) then none
  else
    let r := stripLeadingSlashes rel
    if r = [] then
      let out := root ++ "/index.html".data
      if out.length < n then some out else none
    else if r.getLast? = some '/' then
      let out := root ++ '/' :: (r ++ "index.html".data)
      if out.length < n then some out else none
    else
      let out := root ++ '/' :: r
      if out.length < n then some out else none

/-- Spec-side resolution function, written from the words of spec §4.2
steps 2-5 (strip leading slashes; empty → `<root>/index.html`; trailing
slash → `<root>/<target>index.html`; otherwise `<root>/<target>`), to be
compared against the source-derived `safe_join`. -/
def resolve_spec (root rel : List Char) : List Char :=
  let r := stripLeadingSlashes rel
  if r = [] then root ++ "/index.html".data
  else if r.getLast? = some '/' then root ++ '/' :: (r ++ "index.html".data)
  else root ++ '/' :: r

/-! ## `mime_from_path` (src/server.c lines 103-116) -/

/-- Embedding of `strrchr(path, '.')`: the suffix of the path starting at
the last `'.'`, or `none` when the path contains no dot. -/
def afterLastDot : List Char → Option (List Char)
  | [] => none
  | c :: cs =>
    match afterLastDot cs with
    | some s => some s
    | none => if c = '.' then some (c :: cs) else none

def mime_from_path (path : List Char) : List Char :=
  match afterLastDot path with
  | none => "application/octet-stream".data
  | some dot =>
    if dot = ".html".data ∨ dot = ".htm".data then "text/html; charset=utf-8".data
    else if dot = ".css".data then "text/css; charset=utf-8".data
    else if dot = ".js".data then "application/javascript; charset=utf-8".data
    else if dot = ".json".data then "application/json; charset=utf-8".data
    else if dot = ".png".data then "image/png".data
    else if dot = ".jpg".data ∨ dot = ".jpeg".data then "image/jpeg".data
    else if dot = ".gif".data then "image/gif".data
    else if dot = ".svg".data then "image/svg+xml".data
    else if dot = ".txt".data then "text/plain; charset=utf-8".data
    else "application/octet-stream".data

/-- The text after the last `'.'` of a path (`none` when there is no dot):
the extension in the sense of spec §4.3. -/
def textAfterLastDot (path : List Char) : Option (List Char) :=
  (afterLastDot path).map (List.drop 1)

/-- Spec-side MIME table, written from the words of spec §4.3: an exact,
case-sensitive map over the text after the last dot, defaulting to
`application/octet-stream`. -/
def mime_spec : Option (List Char) → List Char
  | none => "application/octet-stream".data
  | some e =>
    if e = "html".data ∨ e = "htm".data then "text/html; charset=utf-8".data
    else if e = "css".data then "text/css; charset=utf-8".data
    else if e = "js".data then "application/javascript; charset=utf-8".data
    else if e = "json".data then "application/json; charset=utf-8".data
    else if e = "png".data then "image/png".data
    else if e = "jpg".data ∨ e = "jpeg".data then "image/jpeg".data
    else if e = "gif".data then "image/gif".data
    else if e = "svg".data then "image/svg+xml".data
    else if e = "txt".data then "text/plain; charset=utf-8".data
    else "application/octet-stream".data

/-! ## `parse_request_line` (src/server.c lines 179-181)

`sscanf(line, "%7s %2047s %15s", ...) == 3`.  A `%Ns` conversion skips
leading whitespace, then reads up to `N` non-whitespace characters; it fails
only when no character can be read.  A token longer than the field width is
split at the width boundary and the remainder feeds the next conversion;
input left over after the third conversion is ignored. -/

/-- `%Ns` after the whitespace skip: read at most `w` leading
non-whitespace characters, returning them with the unread remainder. -/
def takeToken : Nat → List Char → List Char × List Char
  | 0, s => ([], s)
  | _, [] => ([], [])
  | w + 1, c :: cs =>
    if isSpace c then ([], c :: cs)
    else
      let p := takeToken w cs
      (c :: p.1, p.2)

/-- One `%Ns` conversion: skip whitespace, then read up to `w` characters;
`none` when the input is exhausted before any character is read. -/
def scanToken (w : Nat) (s : List Char) : Option (List Char × List Char) :=
  match s.dropWhile isSpace with
  | [] => none
  | c :: cs => some (takeToken w (c :: cs))

structure Request where
  method : List Char
  target : List Char
  version : List Char
  deriving DecidableEq, Repr

def parse_request_line (line : List Char) : Option Request :=
  match scanToken 7 line with
  | none => none
  | some (m, r1) =>
    match scanToken 2047 r1 with
    | none => none
    | some (t, r2) =>
      match scanToken 15 r2 with
      | none => none
      | some (v, _) => some ⟨m, t, v⟩

/-- Number of whitespace-separated tokens in a line (the ordinary notion of
token used by the spec, with no width limits). -/
def countTokensAux : List Char → Bool → Nat
  | [], _ => 0
  | c :: cs, inTok =>
    if isSpace c then countTokensAux cs false
    else (if inTok then 0 else 1) + countTokensAux cs true

def countTokens (s : List Char) : Nat := countTokensAux s false

/-! ## `send_error` (src/server.c lines 132-154) -/

/-- The HTML error page built by `send_error` from its template; it is
written to the connection after the headers for every error response,
whatever the request method was. -/
def errorBody (status : Nat) (reason : List Char) : List Char :=
  "<!doctype html><html><head><meta charset=\"utf-8\"><title>".data
    ++ (Nat.repr status).data ++ ' ' :: reason
    ++ "</title></head><body><h1>".data
    ++ (Nat.repr status).data ++ ' ' :: reason
    ++ "</h1></body></html>".data

/-! ## `handle_client` (src/server.c lines 185-273) -/

/-- Result of `stat(path, &st)` followed by the `S_ISREG` test. -/
inductive StatResult where
  | regular (size : Nat)
  | notRegular
  | absent
  deriving DecidableEq, Repr

/-- Abstract filesystem seen by one connection: the `stat` outcome, whether
`open(path, O_RDONLY)` succeeds, and the successive non-error results of
`read(fd, fbuf, 16384)` as a list of chunks (the loop stops at the first
empty chunk, i.e. end of file). -/
structure Fs where
  stat : List Char → StatResult
  openOk : List Char → Bool
  readChunks : List Char → List (List Char)

/-- The GET body-transfer loop (src/server.c lines 244-265) with no send
errors: each chunk read is sent fully; the loop stops at the first
zero-length read. -/
def copy_loop : List (List Char) → List Char
  | [] => []
  | [] :: _ => []
  | (c :: cs) :: rest => (c :: cs) ++ copy_loop rest

/-- What one connection observes from `handle_client`. -/
inductive Outcome where
  | silentClose
  | errorResponse (status : Nat) (reason : List Char)
  | okResponse (ctype : List Char) (contentLength : Nat) (body : List Char)
  deriving DecidableEq, Repr

/-- Everything before the first `"\r\n"` of the buffer (`strstr` plus the
NUL overwrite), or `none` when no `"\r\n"` occurs. -/
def splitCRLF : List Char → Option (List Char)
  | [] => none
  | '\r' :: '\n' :: _ => some []
  | c :: rest => (splitCRLF rest).map (c :: ·)

def DOC_ROOT : List Char := "public".data

/-- The connection handler: `r` is the result of the initial `recv` and
`buf` the received bytes; `pathMax` is the size of the `fs_path` buffer
(`PATH_MAX`). -/
def handle_client (fs : Fs) (pathMax : Nat) (r : Int) (buf : List Char) : Outcome :=
  if r ≤ 0 then .silentClose
  else
    match splitCRLF buf with
    | none => .errorResponse 400 "Bad Request".data
    | some line =>
      match parse_request_line line with
      | none => .errorResponse 400 "Bad Request".data
      | some req =>
        if req.method = "GET".data ∨ req.method = "HEAD".data then
          match safe_join pathMax DOC_ROOT req.target with
          | none => .errorResponse 400 "Bad Request".data
          | some fs_path =>
            match fs.stat fs_path with
            | .regular size =>
              if fs.openOk fs_path then
                .okResponse (mime_from_path fs_path) size
                  (if req.method = "GET".data then copy_loop (fs.readChunks fs_path) else [])
              else .errorResponse 403 "Forbidden".data
            | .notRegular => .errorResponse 404 "Not Found".data
            | .absent => .errorResponse 404 "Not Found".data
        else .errorResponse 405 "Method Not Allowed".data

/-- The HTTP status visible on the wire for an outcome (`none` when the
connection is closed without any response). -/
def statusOf : Outcome → Option Nat
  | .silentClose => none
  | .errorResponse s _ => some s
  | .okResponse _ _ _ => some 200

/-- The response body bytes written after the headers. -/
def responseBody : Outcome → List Char
  | .silentClose => []
  | .errorResponse s reason => errorBody s reason
  | .okResponse _ _ b => b

/-! ## `main` port selection (src/server.c line 332) -/

def atoiDigits : List Char → Nat → Nat
  | [], acc => acc
  | c :: cs, acc =>
    if '0' ≤ c ∧ c ≤ '9' then atoiDigits cs (acc * 10 + (c.toNat - '0'.toNat))
    else acc

/-- C `atoi`: skip whitespace, optional sign, then leading digits; `0` when
no digit follows. -/
def atoi (s : List Char) : Int :=
  match s.dropWhile isSpace with
  | [] => 0
  | c :: rest =>
    if c = '-' then -(atoiDigits rest 0 : Int)
    else if c = '+' then (atoiDigits rest 0 : Int)
    else (atoiDigits (c :: rest) 0 : Int)

/-- `uint16_t port = (argc >= 2) ? (uint16_t)atoi(argv[1]) : DEFAULT_PORT;`
with `args` the full `argv` (program name first). -/
def parse_port (args : List (List Char)) : Nat :=
  if h : 2 ≤ args.length then
    ((atoi (args.get ⟨1, by omega⟩)) % 65536).toNat
  else 8080

/-- A filesystem on which every path is absent: used to exercise the
handler's error paths on concrete inputs. -/
def fs0 : Fs := ⟨fun _ => .absent, fun _ => false, fun _ => []⟩

/-- A filesystem holding one regular two-byte file `public/index.html`
with contents `"hi"`: used to exercise the handler's success path. -/
def fs1 : Fs :=
  ⟨fun p => if p = "public/index.html".data then .regular 2 else .absent,
   fun _ => true,
   fun p => if p = "public/index.html".data then ["hi".data] else []⟩

/-! ## Helper lemmas -/

theorem strstr_nil (needle : List Char) (h : needle ≠ []) : strstr [] needle = false := by
  cases needle with
  | nil => exact absurd rfl h
  | cons c cs => simp [strstr, startsWith]

theorem strstr_cons (hay : List Char) (c : Char) (needle : List Char) :
    strstr (c :: hay) needle = (startsWith needle (c :: hay) || strstr hay needle) := by
  simp [strstr]

theorem strstr_eq_hasDotDot (s : List Char) : strstr s "..".data = hasDotDot s := by
  induction s with
  | nil => rfl
  | cons c s ih =>
    rw [strstr_cons, ih]
    cases s with
    | nil =>
      show (startsWith ['.', '.'] [c] || hasDotDot []) = hasDotDot [c]
      simp [startsWith, hasDotDot]
    | cons d s' =>
      show (startsWith ['.', '.'] (c :: d :: s') || hasDotDot (d :: s')) = hasDotDot (c :: d :: s')
      have h1 : startsWith ['.', '.'] (c :: d :: s') = (decide (c = '.') && decide (d = '.')) := by
        show (decide ('.' = c) && (decide ('.' = d) && true)) = _
        have e1 : decide ('.' = c) = decide (c = '.') := decide_eq_decide.mpr ⟨Eq.symm, Eq.symm⟩
        have e2 : decide ('.' = d) = decide (d = '.') := decide_eq_decide.mpr ⟨Eq.symm, Eq.symm⟩
        rw [Bool.and_true, e1, e2]
      rw [h1]
      rfl

theorem hasDotDot_tail (c : Char) (l : List Char) (h : hasDotDot (c :: l) = false) :
    hasDotDot l = false := by
  cases l with
  | nil => rfl
  | cons d l' =>
    simp only [hasDotDot, Bool.or_eq_false_iff] at h
    exact h.2

theorem hasDotDot_strip (l : List Char) (h : hasDotDot l = false) :
    hasDotDot (stripLeadingSlashes l) = false := by
  induction l with
  | nil => exact h
  | cons c l' ih =>
    show hasDotDot (if c = '/' then stripLeadingSlashes l' else c :: l') = false
    by_cases hc : c = '/'
    · simpa [hc] using ih (hasDotDot_tail c l' h)
    · simpa [hc] using h

theorem hasDotDot_append (a b : List Char) (ha : hasDotDot a = false)
    (hb : hasDotDot b = false) (hhead : b.head? ≠ some '.') :
    hasDotDot (a ++ b) = false := by
  induction a with
  | nil => exact hb
  | cons c a' ih =>
    have ha' : hasDotDot a' = false := hasDotDot_tail c a' ha
    cases a' with
    | nil =>
      cases b with
      | nil => rfl
      | cons d b' =>
        have hd : d ≠ '.' := by
          intro hd
          exact hhead (by simp [hd])
        simp only [List.nil_append, List.cons_append, hasDotDot, Bool.or_eq_false_iff]
        constructor
        · simp [hd]
        · exact hb
    | cons e a'' =>
      have hce : (c = '.' && e = '.') = false := by
        simp only [hasDotDot, Bool.or_eq_false_iff] at ha
        exact ha.1
      simp only [List.cons_append, hasDotDot, Bool.or_eq_false_iff]
      exact ⟨hce, by simpa using ih ha'⟩

theorem stripLeadingSlashes_head (l : List Char) (c : Char)
    (h : (stripLeadingSlashes l).head? = some c) : c ≠ '/' := by
  induction l with
  | nil => simp [stripLeadingSlashes] at h
  | cons d l' ih =>
    by_cases hd : d = '/'
    · exact ih (by simpa [stripLeadingSlashes, hd] using h)
    · simp only [stripLeadingSlashes, if_neg hd, List.head?_cons, Option.some.injEq] at h
      exact h ▸ hd

theorem hasDotDot_index_html : hasDotDot "index.html".data = false := by decide

theorem head_index_html : ("index.html".data).head? = some 'i' := by decide

/-! ## Claims -/

/-- C1: every request target accepted by `safe_join` yields a path that is
a descendant of the document root: the target is rejected whenever it
contains the substring `".."` anywhere, and the produced path is the root
followed by `'/'` and a relative part that neither contains `".."` nor
begins with `'/'` (all leading slashes of the target having been
stripped). -/
theorem safe_join_sandboxed (n : Nat) (root rel out : List Char)
    (h : safe_join n root rel = some out) :
    strstr rel "..".data = false ∧
    ∃ t, out = root ++ '/' :: t ∧ strstr t "..".data = false ∧ t.head? ≠ some '/' := by
  simp only [safe_join] at h
  split at h
  · exact absurd h (by simp)
  case isFalse hdd =>
    have hdd' : strstr rel "..".data = false := by
      revert hdd; cases strstr rel "..".data <;> simp
    refine ⟨hdd', ?_⟩
    have hr : hasDotDot (stripLeadingSlashes rel) = false :=
      hasDotDot_strip rel (by rw [← strstr_eq_hasDotDot]; exact hdd')
    split at h
    case isTrue h0 =>
      split at h
      case isTrue hlen =>
        refine ⟨"index.html".data, ?_, ?_, ?_⟩
        · rw [← Option.some.inj h]
        · rw [strstr_eq_hasDotDot]; exact hasDotDot_index_html
        · decide
      case isFalse _ => exact absurd h (by simp)
    case isFalse h0 =>
      split at h
      case isTrue hslash =>
        split at h
        case isTrue hlen =>
          refine ⟨stripLeadingSlashes rel ++ "index.html".data, ?_, ?_, ?_⟩
          · rw [← Option.some.inj h]
          · rw [strstr_eq_hasDotDot]
            exact hasDotDot_append _ _ hr hasDotDot_index_html (by rw [head_index_html]; decide)
          · cases hrc : stripLeadingSlashes rel with
            | nil => exact absurd hrc h0
            | cons x xs =>
              have hx : x ≠ '/' := stripLeadingSlashes_head rel x (by rw [hrc]; rfl)
              simp [hx]
        case isFalse _ => exact absurd h (by simp)
      case isFalse hslash =>
        split at h
        case isTrue hlen =>
          refine ⟨stripLeadingSlashes rel, ?_, ?_, ?_⟩
          · rw [← Option.some.inj h]
          · rw [strstr_eq_hasDotDot]; exact hr
          · cases hrc : stripLeadingSlashes rel with
            | nil => exact absurd hrc h0
            | cons x xs =>
              have hx : x ≠ '/' := stripLeadingSlashes_head rel x (by rw [hrc]; rfl)
              simp [hx]
        case isFalse _ => exact absurd h (by simp)

/-- Witness for C1 at the concrete accepted target `"/a/b.txt"`. -/
theorem safe_join_sandboxed_witness :
    strstr "/a/b.txt".data "..".data = false ∧
    ∃ t, "public/a/b.txt".data = "public".data ++ '/' :: t ∧
      strstr t "..".data = false ∧ t.head? ≠ some '/' :=
  ⟨by decide,
    (safe_join_sandboxed 260 "public".data "/a/b.txt".data "public/a/b.txt".data (by decide)).2⟩

/-- C4: on every target free of `".."` (the ones not rejected outright),
`safe_join` returns exactly the spec §4.2 resolution — `<root>/index.html`
for an empty stripped target, `<root>/<target>index.html` for a trailing
slash, `<root>/<target>` otherwise — when it fits the output buffer, and
fails with the path-too-long signal exactly otherwise. -/
theorem safe_join_eq_resolve_spec (n : Nat) (root rel : List Char)
    (h : strstr rel "..".data = false) :
    safe_join n root rel =
      if (resolve_spec root rel).length < n then some (resolve_spec root rel) else none := by
  unfold safe_join resolve_spec
  by_cases h0 : stripLeadingSlashes rel = [] <;>
    by_cases h1 : (stripLeadingSlashes rel).getLast? = some '/' <;>
      simp [h, h0, h1]

/-- Witness for C4 at the trailing-slash target `"/a/b/"`. -/
theorem safe_join_eq_resolve_spec_witness :
    strstr "/a/b/".data "..".data = false ∧
    safe_join 260 "public".data "/a/b/".data =
      (if (resolve_spec "public".data "/a/b/".data).length < 260 then
        some (resolve_spec "public".data "/a/b/".data) else none) :=
  ⟨by decide, safe_join_eq_resolve_spec 260 "public".data "/a/b/".data (by decide)⟩

theorem afterLastDot_shape (p d : List Char) (h : afterLastDot p = some d) :
    ∃ t, d = '.' :: t := by
  induction p with
  | nil => simp [afterLastDot] at h
  | cons c cs ih =>
    simp only [afterLastDot] at h
    cases hcs : afterLastDot cs with
    | some s =>
      rw [hcs] at h
      obtain rfl := Option.some.inj h
      exact ih hcs
    | none =>
      rw [hcs] at h
      by_cases hc : c = '.'
      · rw [if_pos hc] at h
        exact ⟨cs, (Option.some.inj h).symm.trans (by rw [hc])⟩
      · rw [if_neg hc] at h
        exact absurd h (by simp)

/-- C7: `mime_from_path` is a pure total function: for every path it
returns exactly the content type that the spec §4.3 table assigns,
case-sensitively, to the text after the last `'.'`, and
`application/octet-stream` when the path has no dot or the extension is
unrecognized. -/
theorem mime_from_path_spec (p : List Char) :
    mime_from_path p = mime_spec (textAfterLastDot p) := by
  unfold mime_from_path mime_spec textAfterLastDot
  cases hd : afterLastDot p with
  | none => rfl
  | some d =>
    obtain ⟨t, rfl⟩ := afterLastDot_shape p d hd
    simp only [Option.map_some', List.drop_succ_cons, List.drop_zero]
    simp only [List.cons.injEq, eq_self_iff_true, true_and]

/-! ## Claim C3: the request-line parser -/

theorem dropWhile_head_false (p : Char → Bool) (l : List Char) (c : Char) (cs : List Char)
    (h : l.dropWhile p = c :: cs) : p c = false := by
  induction l with
  | nil => simp [List.dropWhile] at h
  | cons a l' ih =>
    rw [List.dropWhile_cons] at h
    by_cases ha : p a = true
    · exact ih (by rwa [if_pos ha] at h)
    · rw [if_neg ha] at h
      rw [← (List.cons.inj h).1]
      simpa using ha

theorem takeToken_length : ∀ (w : Nat) (s : List Char), (takeToken w s).1.length ≤ w := by
  intro w
  induction w with
  | zero => intro s; cases s <;> simp [takeToken]
  | succ w' ih =>
    intro s
    cases s with
    | nil => simp [takeToken]
    | cons c cs =>
      by_cases hc : isSpace c = true
      · simp [takeToken, hc]
      · have := ih cs
        simp only [takeToken, if_neg hc, List.length_cons]
        omega

theorem takeToken_nospace : ∀ (w : Nat) (s : List Char) (c : Char),
    c ∈ (takeToken w s).1 → isSpace c = false := by
  intro w
  induction w with
  | zero => intro s c hc; cases s <;> simp [takeToken] at hc
  | succ w' ih =>
    intro s c hc
    cases s with
    | nil => simp [takeToken] at hc
    | cons a as =>
      by_cases ha : isSpace a = true
      · simp [takeToken, ha] at hc
      · simp only [takeToken, if_neg ha] at hc
        rcases List.mem_cons.mp hc with rfl | hmem
        · simpa using ha
        · exact ih as c hmem

theorem takeToken_exact : ∀ (w : Nat) (m r : List Char), m.length ≤ w →
    (∀ c ∈ m, isSpace c = false) →
    (r = [] ∨ ∃ c r2, r = c :: r2 ∧ isSpace c = true) →
    takeToken w (m ++ r) = (m, r) := by
  intro w
  induction w with
  | zero =>
    intro m r hlen _ hr
    have hm : m = [] := List.length_eq_zero.mp (Nat.le_zero.mp hlen)
    subst hm
    rcases hr with rfl | ⟨c, r2, rfl, hc⟩
    · rfl
    · rfl
  | succ w' ih =>
    intro m r hlen hm hr
    cases m with
    | nil =>
      rcases hr with rfl | ⟨c, r2, rfl, hc⟩
      · rfl
      · show takeToken (w' + 1) (c :: r2) = ([], c :: r2)
        simp [takeToken, hc]
    | cons a m' =>
      have ha : isSpace a = false := hm a (by simp)
      have hlen' : m'.length ≤ w' := by simp at hlen; omega
      have hrec := ih m' r hlen' (fun c hc => hm c (by simp [hc])) hr
      show takeToken (w' + 1) (a :: (m' ++ r)) = (a :: m', r)
      simp [takeToken, ha, hrec]

theorem scanToken_space (w : Nat) (c : Char) (s : List Char) (hc : isSpace c = true) :
    scanToken w (c :: s) = scanToken w s := by
  unfold scanToken
  rw [List.dropWhile_cons, if_pos hc]

theorem scanToken_exact (w : Nat) (m r : List Char) (hm0 : m ≠ [])
    (hlen : m.length ≤ w) (hm : ∀ c ∈ m, isSpace c = false)
    (hr : r = [] ∨ ∃ c r2, r = c :: r2 ∧ isSpace c = true) :
    scanToken w (m ++ r) = some (m, r) := by
  cases m with
  | nil => exact absurd rfl hm0
  | cons a m' =>
    have ha : isSpace a = false := hm a (by simp)
    unfold scanToken
    rw [List.cons_append, List.dropWhile_cons, if_neg (by simp [ha])]
    show some (takeToken w (a :: (m' ++ r))) = some (a :: m', r)
    rw [show a :: (m' ++ r) = (a :: m') ++ r from rfl]
    rw [takeToken_exact w (a :: m') r hlen hm hr]

theorem scanToken_props (w : Nat) (s m r : List Char) (hw : 1 ≤ w)
    (h : scanToken w s = some (m, r)) :
    m ≠ [] ∧ m.length ≤ w ∧ ∀ c ∈ m, isSpace c = false := by
  unfold scanToken at h
  cases hdw : s.dropWhile isSpace with
  | nil => rw [hdw] at h; exact absurd h (by simp)
  | cons c cs =>
    rw [hdw] at h
    have hc : isSpace c = false := dropWhile_head_false isSpace s c cs hdw
    have hm : (m, r) = takeToken w (c :: cs) := (Option.some.inj h).symm
    obtain ⟨w', rfl⟩ : ∃ w', w = w' + 1 := ⟨w - 1, by omega⟩
    rw [show takeToken (w' + 1) (c :: cs) = (c :: (takeToken w' cs).1, (takeToken w' cs).2) by
      simp [takeToken, hc]] at hm
    cases hm
    refine ⟨by simp, ?_, ?_⟩
    · have := takeToken_length w' cs
      simp only [List.length_cons]
      omega
    · intro d hd
      rcases List.mem_cons.mp hd with rfl | hmem
      · exact hc
      · exact takeToken_nospace w' cs d hmem
/-- C3 (amended): every successful parse yields nonempty whitespace-free
tokens within the bounds (method â¤ 7, target â¤ 2047, version â¤ 15); every
line of three such in-bound tokens parses to exactly those tokens; and a
line of only one or two in-bound tokens fails with the malformed-request
signal.  Unlike the original claim, lines with extra tokens or oversized
tokens are not rejected: `sscanf` ignores input after the third conversion
and splits an oversized token at its field width. -/
theorem parse_request_line_amended :
    (∀ (line : List Char) (req : Request), parse_request_line line = some req →
      (req.method ≠ [] ∧ req.method.length ≤ 7 ∧ ∀ c ∈ req.method, isSpace c = false) ∧
      (req.target ≠ [] ∧ req.target.length ≤ 2047 ∧ ∀ c ∈ req.target, isSpace c = false) ∧
      (req.version ≠ [] ∧ req.version.length ≤ 15 ∧ ∀ c ∈ req.version, isSpace c = false)) ∧
    (∀ m t v : List Char,
      m ≠ [] → m.length ≤ 7 → (∀ c ∈ m, isSpace c = false) →
      t ≠ [] → t.length ≤ 2047 → (∀ c ∈ t, isSpace c = false) →
      v ≠ [] → v.length ≤ 15 → (∀ c ∈ v, isSpace c = false) →
      parse_request_line (m ++ ' ' :: (t ++ ' ' :: v)) = some ⟨m, t, v⟩) ∧
    (∀ m t : List Char,
      m ≠ [] → m.length ≤ 7 → (∀ c ∈ m, isSpace c = false) →
      t ≠ [] → t.length ≤ 2047 → (∀ c ∈ t, isSpace c = false) →
      parse_request_line (m ++ ' ' :: t) = none) ∧
    (∀ m : List Char, m.length ≤ 7 → (∀ c ∈ m, isSpace c = false) →
      parse_request_line m = none) := by
  refine ⟨?_, ?_, ?_, ?_⟩
  · intro line req h
    unfold parse_request_line at h
    cases h1 : scanToken 7 line with
    | none => simp [h1] at h
    | some p1 =>
      obtain ⟨m, r1⟩ := p1
      cases h2 : scanToken 2047 r1 with
      | none => simp [h1, h2] at h
      | some p2 =>
        obtain ⟨t, r2⟩ := p2
        cases h3 : scanToken 15 r2 with
        | none => simp [h1, h2, h3] at h
        | some p3 =>
          obtain ⟨v, r3⟩ := p3
          simp only [h1, h2, h3] at h
          obtain rfl := (Option.some.inj h).symm
          exact ⟨scanToken_props 7 line m r1 (by omega) h1,
            scanToken_props 2047 r1 t r2 (by omega) h2,
            scanToken_props 15 r2 v r3 (by omega) h3⟩
  · intro m t v hm0 hm7 hmsp ht0 ht2047 htsp hv0 hv15 hvsp
    have s1 : scanToken 7 (m ++ ' ' :: (t ++ ' ' :: v)) = some (m, ' ' :: (t ++ ' ' :: v)) :=
      scanToken_exact 7 m _ hm0 hm7 hmsp (Or.inr ⟨' ', _, rfl, by decide⟩)
    have s2 : scanToken 2047 (' ' :: (t ++ ' ' :: v)) = some (t, ' ' :: v) := by
      rw [scanToken_space 2047 ' ' _ (by decide)]
      exact scanToken_exact 2047 t _ ht0 ht2047 htsp (Or.inr ⟨' ', v, rfl, by decide⟩)
    have s3 : scanToken 15 (' ' :: v) = some (v, []) := by
      rw [scanToken_space 15 ' ' v (by decide)]
      simpa using scanToken_exact 15 v [] hv0 hv15 hvsp (Or.inl rfl)
    simp [parse_request_line, s1, s2, s3]
  · intro m t hm0 hm7 hmsp ht0 ht2047 htsp
    have s1 : scanToken 7 (m ++ ' ' :: t) = some (m, ' ' :: t) :=
      scanToken_exact 7 m _ hm0 hm7 hmsp (Or.inr ⟨' ', t, rfl, by decide⟩)
    have s2 : scanToken 2047 (' ' :: t) = some (t, []) := by
      rw [scanToken_space 2047 ' ' t (by decide)]
      simpa using scanToken_exact 2047 t [] ht0 ht2047 htsp (Or.inl rfl)
    have s3 : scanToken 15 ([] : List Char) = none := rfl
    simp [parse_request_line, s1, s2, s3]
  · intro m hm7 hmsp
    cases hm : m with
    | nil => rfl
    | cons a m' =>
      have s1 : scanToken 7 (a :: m') = some (a :: m', []) := by
        simpa using scanToken_exact 7 (a :: m') [] (by simp) (hm ▸ hm7) (hm ▸ hmsp) (Or.inl rfl)
      have s2 : scanToken 2047 ([] : List Char) = none := rfl
      simp [parse_request_line, s1, s2]

/-- C3 (counterexample): the claimed "exactly three tokens, oversized
tokens rejected" iff fails on the code: a four-token line parses
successfully, and a line whose method token has 13 characters also parses
successfully with the token split at the width boundary. -/
theorem parse_request_line_refuted :
    countTokens ("GET / HTTP/1.1 extra".data) = 4 ∧
    parse_request_line ("GET / HTTP/1.1 extra".data) =
      some ⟨"GET".data, "/".data, "HTTP/1.1".data⟩ ∧
    7 < ("TOOLONGMETHOD".data).length ∧
    parse_request_line ("TOOLONGMETHOD / HTTP/1.1".data) =
      some ⟨"TOOLONG".data, "METHOD".data, "/".data⟩ := by decide

/-- Witness for the amended C3 at the concrete line `"GET / HTTP/1.1"`. -/
theorem parse_request_line_amended_witness :
    parse_request_line ("GET".data ++ ' ' :: ("/".data ++ ' ' :: "HTTP/1.1".data)) =
      some ⟨"GET".data, "/".data, "HTTP/1.1".data⟩ :=
  parse_request_line_amended.2.1 "GET".data "/".data "HTTP/1.1".data
    (by decide) (by decide) (by decide) (by decide) (by decide) (by decide)
    (by decide) (by decide) (by decide)

/-! ## The connection handler and port selection claims -/

theorem copy_loop_eq_join (cs : List (List Char)) (h : ∀ c ∈ cs, c ≠ []) :
    copy_loop cs = cs.flatten := by
  induction cs with
  | nil => rfl
  | cons c cs' ih =>
    cases c with
    | nil => exact absurd rfl (h [] (by simp))
    | cons a as =>
      simp only [copy_loop, List.flatten_cons]
      rw [ih (fun d hd => h d (by simp [hd]))]

theorem hc_reduce (fs : Fs) (pm : Nat) (r : Int) (buf line : List Char)
    (req : Request) (fs_path : List Char)
    (hr : 0 < r) (hline : splitCRLF buf = some line)
    (hparse : parse_request_line line = some req)
    (hmethod : req.method = "GET".data ∨ req.method = "HEAD".data)
    (hjoin : safe_join pm DOC_ROOT req.target = some fs_path) :
    handle_client fs pm r buf =
      (match fs.stat fs_path with
      | .regular size =>
        if fs.openOk fs_path then
          Outcome.okResponse (mime_from_path fs_path) size
            (if req.method = "GET".data then copy_loop (fs.readChunks fs_path) else [])
        else Outcome.errorResponse 403 "Forbidden".data
      | .notRegular => Outcome.errorResponse 404 "Not Found".data
      | .absent => Outcome.errorResponse 404 "Not Found".data) := by
  unfold handle_client
  rw [if_neg (by omega)]
  simp only [hline, hparse, hjoin]
  rw [if_pos hmethod]

theorem hc_405 (fs : Fs) (pm : Nat) (r : Int) (buf line : List Char) (req : Request)
    (hr : 0 < r) (hline : splitCRLF buf = some line)
    (hparse : parse_request_line line = some req)
    (hm1 : req.method ≠ "GET".data) (hm2 : req.method ≠ "HEAD".data) :
    handle_client fs pm r buf = .errorResponse 405 "Method Not Allowed".data := by
  unfold handle_client
  rw [if_neg (by omega)]
  simp only [hline, hparse]
  rw [if_neg (by rintro (h | h); exacts [hm1 h, hm2 h])]
/-- C9: the method check is byte-exact and case-sensitive: whenever the
parsed method differs from exactly `"GET"` and exactly `"HEAD"` (including
spellings such as `"get"` or `"Head"`), the handler sends
405 Method Not Allowed. -/
theorem handle_client_method_case_sensitive (fs : Fs) (pm : Nat) (r : Int)
    (buf line : List Char) (req : Request)
    (hr : 0 < r) (hline : splitCRLF buf = some line)
    (hparse : parse_request_line line = some req)
    (hm1 : req.method ≠ "GET".data) (hm2 : req.method ≠ "HEAD".data) :
    handle_client fs pm r buf = .errorResponse 405 "Method Not Allowed".data :=
  hc_405 fs pm r buf line req hr hline hparse hm1 hm2

/-- Witness for C9 at the lowercase method `"get"`. -/
theorem handle_client_method_case_sensitive_witness :
    handle_client fs0 260 1 "get / HTTP/1.1\r\nHost: h\r\n".data =
      .errorResponse 405 "Method Not Allowed".data :=
  handle_client_method_case_sensitive fs0 260 1 "get / HTTP/1.1\r\nHost: h\r\n".data
    "get / HTTP/1.1".data ⟨"get".data, "/".data, "HTTP/1.1".data⟩
    (by decide) (by decide) (by decide) (by decide) (by decide)

/-- C2 (counterexample): a POST request whose target contains `".."`
receives 405, not the claimed 400 — the method check runs before the path
check. -/
theorem handle_client_dotdot_refuted :
    strstr "/../secret".data "..".data = true ∧
    parse_request_line "POST /../secret HTTP/1.1".data =
      some ⟨"POST".data, "/../secret".data, "HTTP/1.1".data⟩ ∧
    handle_client fs0 260 1 "POST /../secret HTTP/1.1\r\n".data =
      .errorResponse 405 "Method Not Allowed".data ∧
    statusOf (handle_client fs0 260 1 "POST /../secret HTTP/1.1\r\n".data) ≠ some 400 := by
  decide

/-- C2 (amended): for every GET or HEAD request whose target contains the
substring `".."` anywhere the handler sends 400 Bad Request; for any other
method the handler sends 405 Method Not Allowed instead, because the
method check precedes the path check. -/
theorem handle_client_dotdot_amended (fs : Fs) (pm : Nat) (r : Int)
    (buf line : List Char) (req : Request)
    (hr : 0 < r) (hline : splitCRLF buf = some line)
    (hparse : parse_request_line line = some req)
    (hdd : strstr req.target "..".data = true) :
    (req.method = "GET".data ∨ req.method = "HEAD".data →
      handle_client fs pm r buf = .errorResponse 400 "Bad Request".data) ∧
    (req.method ≠ "GET".data ∧ req.method ≠ "HEAD".data →
      handle_client fs pm r buf = .errorResponse 405 "Method Not Allowed".data) := by
  constructor
  · intro hmethod
    unfold handle_client
    rw [if_neg (by omega)]
    simp only [hline, hparse]
    rw [if_pos hmethod]
    have hj : safe_join pm DOC_ROOT req.target = none := by
      unfold safe_join
      rw [if_pos hdd]
    simp only [hj]
  · rintro ⟨hm1, hm2⟩
    exact hc_405 fs pm r buf line req hr hline hparse hm1 hm2

/-- Witness for the amended C2 at the concrete request `GET /..`. -/
theorem handle_client_dotdot_amended_witness :
    handle_client fs0 260 1 "GET /.. HTTP/1.1\r\n".data =
      .errorResponse 400 "Bad Request".data :=
  (handle_client_dotdot_amended fs0 260 1 "GET /.. HTTP/1.1\r\n".data
    "GET /.. HTTP/1.1".data ⟨"GET".data, "/..".data, "HTTP/1.1".data⟩
    (by decide) (by decide) (by decide) (by decide)).1 (Or.inl rfl)

/-- C5: the handler only ever produces the statuses 200, 400, 403, 404,
405 (or closes silently), and maps outcomes exactly as claimed: resolved
path absent or not a regular file → 404, present but unopenable → 403,
method other than GET/HEAD → 405. -/
theorem handle_client_status_codes (fs : Fs) (pm : Nat) (r : Int) (buf : List Char) :
    (∀ s, statusOf (handle_client fs pm r buf) = some s →
      s = 200 ∨ s = 400 ∨ s = 403 ∨ s = 404 ∨ s = 405) ∧
    (∀ line req, 0 < r → splitCRLF buf = some line →
      parse_request_line line = some req →
      (req.method ≠ "GET".data ∧ req.method ≠ "HEAD".data →
        handle_client fs pm r buf = .errorResponse 405 "Method Not Allowed".data) ∧
      (∀ fs_path, (req.method = "GET".data ∨ req.method = "HEAD".data) →
        safe_join pm DOC_ROOT req.target = some fs_path →
        ((fs.stat fs_path = .absent ∨ fs.stat fs_path = .notRegular) →
          handle_client fs pm r buf = .errorResponse 404 "Not Found".data) ∧
        (∀ size, fs.stat fs_path = .regular size → fs.openOk fs_path = false →
          handle_client fs pm r buf = .errorResponse 403 "Forbidden".data))) := by
  constructor
  · intro s hs
    unfold handle_client at hs
    repeat' split at hs
    all_goals simp [statusOf] at hs
    all_goals omega
  · intro line req hr hline hparse
    constructor
    · rintro ⟨hm1, hm2⟩
      exact hc_405 fs pm r buf line req hr hline hparse hm1 hm2
    · intro fs_path hmethod hjoin
      have hred := hc_reduce fs pm r buf line req fs_path hr hline hparse hmethod hjoin
      constructor
      · intro hstat
        rcases hstat with h | h <;> rw [hred, h]
      · intro size hstat hopen
        rw [hred, hstat]
        simp [hopen]

/-- Witness for C5: the 400 produced for a request without CRLF is in the
allowed status set. -/
theorem handle_client_status_codes_witness :
    (400 : Nat) = 200 ∨ (400 : Nat) = 400 ∨ (400 : Nat) = 403 ∨
      (400 : Nat) = 404 ∨ (400 : Nat) = 405 :=
  (handle_client_status_codes fs0 260 1 "no crlf here".data).1 400 (by decide)

/-- C6: for every successfully opened regular file the 200 response
carries the resolved content type and a Content-Length equal to the stat
size; for GET the body is the byte-for-byte concatenation of the chunks the
file read loop delivers, whose length equals the declared Content-Length
when the stat size matches the file's bytes; for HEAD no body bytes are
written although Content-Length still reflects the file size. -/
theorem handle_client_success (fs : Fs) (pm : Nat) (r : Int) (buf line : List Char)
    (req : Request) (fs_path : List Char) (size : Nat)
    (hr : 0 < r) (hline : splitCRLF buf = some line)
    (hparse : parse_request_line line = some req)
    (hmethod : req.method = "GET".data ∨ req.method = "HEAD".data)
    (hjoin : safe_join pm DOC_ROOT req.target = some fs_path)
    (hstat : fs.stat fs_path = .regular size)
    (hopen : fs.openOk fs_path = true)
    (hchunks : ∀ c ∈ fs.readChunks fs_path, c ≠ [])
    (hsize : (fs.readChunks fs_path).flatten.length = size) :
    handle_client fs pm r buf =
      .okResponse (mime_from_path fs_path) size
        (if req.method = "GET".data then (fs.readChunks fs_path).flatten else []) ∧
    (req.method = "GET".data →
      (responseBody (handle_client fs pm r buf)).length = size) ∧
    (req.method = "HEAD".data → responseBody (handle_client fs pm r buf) = []) := by
  have hred := hc_reduce fs pm r buf line req fs_path hr hline hparse hmethod hjoin
  simp only [hstat] at hred
  rw [if_pos hopen, copy_loop_eq_join _ hchunks] at hred
  refine ⟨hred, ?_, ?_⟩
  · intro hget
    rw [hred]
    simp [responseBody, hget, hsize]
  · intro hhead
    have hne : req.method ≠ "GET".data := by rw [hhead]; decide
    rw [hred]
    simp [responseBody, hne]

/-- Witness for C6: `GET /` against a two-byte `public/index.html` with
contents `"hi"`. -/
theorem handle_client_success_witness :
    handle_client fs1 260 1 "GET / HTTP/1.1\r\nHost: h\r\n".data =
      .okResponse "text/html; charset=utf-8".data 2 "hi".data := by
  have h := (handle_client_success fs1 260 1 "GET / HTTP/1.1\r\nHost: h\r\n".data
    "GET / HTTP/1.1".data ⟨"GET".data, "/".data, "HTTP/1.1".data⟩
    "public/index.html".data 2
    (by decide) (by decide) (by decide) (by decide) (by decide) (by decide)
    (by decide) (by decide) (by decide)).1
  rw [h]
  decide

/-- C10: every error response (400, 403, 404, 405) carries the generated
HTML error page as its body, which is never empty, regardless of the
request method — in particular a failed HEAD request receives a non-empty
body, unlike a successful HEAD response whose body is empty. -/
theorem handle_client_error_body (fs : Fs) (pm : Nat) (r : Int) (buf : List Char) :
    (∀ s reason, handle_client fs pm r buf = .errorResponse s reason →
      responseBody (handle_client fs pm r buf) = errorBody s reason ∧
      errorBody s reason ≠ []) ∧
    (∀ line req fs_path size, 0 < r → splitCRLF buf = some line →
      parse_request_line line = some req → req.method = "HEAD".data →
      safe_join pm DOC_ROOT req.target = some fs_path →
      fs.stat fs_path = .regular size → fs.openOk fs_path = true →
      responseBody (handle_client fs pm r buf) = []) := by
  constructor
  · intro s reason h
    rw [h]
    refine ⟨rfl, ?_⟩
    simp [errorBody]
  · intro line req fs_path size hr hline hparse hhead hjoin hstat hopen
    have hred := hc_reduce fs pm r buf line req fs_path hr hline hparse
      (Or.inr hhead) hjoin
    simp only [hstat] at hred
    rw [if_pos hopen] at hred
    have hne : req.method ≠ "GET".data := by rw [hhead]; decide
    rw [hred]
    simp [responseBody, hne]

/-- Witness for C10 at a concrete 404 outcome. -/
theorem handle_client_error_body_witness :
    responseBody (handle_client fs0 260 1 "GET /x HTTP/1.1\r\n".data) =
      errorBody 404 "Not Found".data ∧
    errorBody 404 "Not Found".data ≠ [] :=
  (handle_client_error_body fs0 260 1 "GET /x HTTP/1.1\r\n".data).1
    404 "Not Found".data (by decide)

/-- C8 (counterexample): with the non-numeric argument `"abc"` the port
is 0, not the claimed default 8080. -/
theorem parse_port_refuted :
    parse_port ["./server".data, "abc".data] = 0 ∧
    parse_port ["./server".data, "abc".data] ≠ 8080 := by decide

/-- C8 (amended): the listen port defaults to 8080 exactly when the
positional argument is absent; when an argument is present the port is
`(uint16_t)atoi(argv[1])`, which is 0 — not 8080 — for a non-numeric
argument. -/
theorem parse_port_amended :
    (∀ args : List (List Char), args.length < 2 → parse_port args = 8080) ∧
    (∀ p s rest, (∀ c ∈ s, isSpace c = false ∧ ¬('0' ≤ c ∧ c ≤ '9') ∧ c ≠ '+' ∧ c ≠ '-') →
      parse_port (p :: s :: rest) = 0) ∧
    (∀ p s rest, parse_port (p :: s :: rest) = ((atoi s) % 65536).toNat) := by
  have hlen : ∀ (p s : List Char) (rest : List (List Char)),
      2 ≤ (p :: s :: rest).length := by
    intro p s rest
    simp only [List.length_cons]
    omega
  have hget : ∀ (p s : List Char) (rest : List (List Char)),
      parse_port (p :: s :: rest) = ((atoi s) % 65536).toNat := by
    intro p s rest
    unfold parse_port
    rw [dif_pos (hlen p s rest)]
    rfl
  refine ⟨?_, ?_, hget⟩
  · intro args h
    unfold parse_port
    rw [dif_neg (by omega)]
  · intro p s rest h
    rw [hget p s rest]
    have ha : atoi s = 0 := by
      cases s with
      | nil => rfl
      | cons c s' =>
        obtain ⟨hsp, hdig, hplus, hminus⟩ := h c (by simp)
        unfold atoi
        rw [List.dropWhile_cons, if_neg (by simp [hsp])]
        show (if c = '-' then _ else if c = '+' then _ else (atoiDigits (c :: s') 0 : Int)) = 0
        rw [if_neg hminus, if_neg hplus,
          show atoiDigits (c :: s') 0 = 0 from by unfold atoiDigits; rw [if_neg hdig]]
        rfl
    rw [ha]
    rfl

/-- Witness for the amended C8 at the non-numeric argument `"abc"`. -/
theorem parse_port_amended_witness :
    parse_port ["./server".data, "abc".data] = 0 :=
  parse_port_amended.2.1 "./server".data "abc".data [] (by decide)
end HttpServer
